import Mathlib

/-!
Shallow embedding of `src/uxp-plugins/indesign/commands/layout.js`
(the Word-content flow engine) over an explicit model of the InDesign
host document state.

Modelling conventions:
* Machine state mutated through the host adapter (pages, text frames,
  the chain's story, paragraph styles) is an explicit `Doc` record.
* The engine only ever appends text through the current frame of one
  linked chain; in InDesign all frames of a chain share one story, so
  the model keeps a single `story` buffer for the chain.
* Host behaviour the engine merely observes is abstracted into oracle
  parameters: `ov doc frameId` models `textFrame.overflows`, and
  `cf name` models whether `doc.paragraphStyles.add({name})` throws.
* JavaScript truthiness on optional strings (`block.style`,
  `styleMapping[k] || k`) is modelled explicitly: `""`, `null` and
  `undefined` are all falsy.
-/

/-- Character-level state the Run Formatter can touch:
`char.fontStyle` and `char.underline`. -/
structure CharState where
  fontStyle : String
  underline : Bool
deriving Repr, DecidableEq

/-- State of a freshly appended character before any run formatting. -/
def defaultCharState : CharState := { fontStyle := "Regular", underline := false }

/-- `run.formatting` flags (`bold` / `italic` / `underline`). -/
structure Formatting where
  bold : Bool
  italic : Bool
  underline : Bool
deriving Repr, DecidableEq

/-- One run of a paragraph: `{ text, formatting }`. A missing or empty
`run.text` is modelled as `""` (both are falsy in the source); a missing
`run.formatting` object is `none`. -/
structure Run where
  text : String
  formatting : Option Formatting
deriving Repr, DecidableEq

/-- `page.bounds` array `[y1, x1, y2, x2]` (top, left, bottom, right). -/
structure GeomBounds where
  y1 : Int
  x1 : Int
  y2 : Int
  x2 : Int
deriving Repr, DecidableEq

/-- `page.marginPreferences`. -/
structure Margins where
  top : Int
  bottom : Int
  left : Int
  right : Int
deriving Repr, DecidableEq

/-- One page of the host document. -/
structure Page where
  bounds : GeomBounds
  margins : Margins
deriving Repr, DecidableEq

/-- The rectangle computed by `getPageContentBounds`. -/
structure Rect where
  x : Int
  y : Int
  width : Int
  height : Int
deriving Repr, DecidableEq

/-- One text frame; `nextTextFrame` is the id (index into `Doc.frames`)
of the successor frame of the chain, if any. -/
structure Frame where
  pageIndex : Nat
  geometricBounds : GeomBounds
  nextTextFrame : Option Nat
deriving Repr, DecidableEq

/-- Host document state visible to the flow engine.  `defaultPage` is the
page template `doc.pages.add()` instantiates.  `story` is the character
buffer of the engine's frame chain (character plus its formatting state);
`styleApps` logs each `paragraphs[-1].appliedParagraphStyle = style`
assignment as (paragraph index, style name); `paraStyles` is the set of
paragraph style names present in the document, in creation order. -/
structure Doc where
  defaultPage : Page
  pages : List Page
  frames : List Frame
  story : List (Char × CharState)
  styleApps : List (Nat × String)
  paraStyles : List String
deriving Repr, DecidableEq

/-- Content blocks consumed by the engine.  A table is rows of cells; a
cell is a list of cell-paragraphs, each a list of runs (a cell-paragraph
with no `runs` field behaves as an empty run list). -/
inductive Block where
  | paragraph (runs : List Run) (style : Option String)
  | table (rows : List (List (List (List Run))))
deriving Repr, DecidableEq

/-- The engine's local mutable variables (`currentPageIndex`,
`pagesCreated`, `paragraphsPlaced`, `currentTextFrame`, `linkedFrames`)
together with the host document. -/
structure FlowState where
  doc : Doc
  currentPageIndex : Nat
  pagesCreated : Nat
  paragraphsPlaced : Nat
  currentTextFrame : Nat
  linkedFrames : List Nat
deriving Repr, DecidableEq

/-- The summary object returned to the caller. -/
structure Summary where
  pagesCreated : Nat
  paragraphsPlaced : Nat
  framesCreated : Nat
  startPage : Nat
  endPage : Nat
deriving Repr, DecidableEq

/-- The recognized fields of `command.options`.  `autoFlow` and
`startPage` may be absent (`options.autoFlow !== false`,
`options.startPage || 0`). -/
structure Options where
  content : List Block
  styleMapping : List (String × String)
  autoFlow : Option Bool
  startPage : Option Nat
deriving Repr, DecidableEq

/-- JavaScript `a || b` on an optional string: `undefined` and `""` both
fall through to `b`. -/
def jsOr : Option String → String → String
  | none, d => d
  | some s, d => if s = "" then d else s

/-- JavaScript truthiness of an optional string (`block.style`). -/
def jsTruthyStr : Option String → Bool
  | none => false
  | some s => s != ""

/-- `paragraphText` accumulation: `for (const run of block.runs) text += run.text || ""`. -/
def runsText (runs : List Run) : String :=
  runs.foldl (fun acc r => acc ++ r.text) ""

/-- Append a plain string to a story buffer: each new character starts in
the host's default character state. -/
def strChars (s : String) : List (Char × CharState) :=
  s.toList.map (fun ch => (ch, defaultCharState))

/-- The text of a story buffer, without formatting state. -/
def storyText (d : Doc) : String :=
  String.mk (d.story.map Prod.fst)

/-- Number of completed paragraphs of the story.  The engine only ever
appends text ending in `"\r"`, so the paragraph count is the number of
paragraph terminators and `story.paragraphs[-1]` has index
`paraCount - 1`. -/
def paraCount (story : List (Char × CharState)) : Nat :=
  (story.filter (fun c => c.1 == '\r')).length

/-- One character step of the run-formatting loop body:
`if bold fontStyle = "Bold"; if italic fontStyle = bold ? "Bold Italic" : "Italic";
if underline underline = true`. -/
def applyFmtChar (f : Formatting) (cs : CharState) : CharState :=
  let cs := if f.bold then { cs with fontStyle := "Bold" } else cs
  let cs := if f.italic then
      { cs with fontStyle := if f.bold then "Bold Italic" else "Italic" }
    else cs
  if f.underline then { cs with underline := true } else cs

/-- Apply formatting `f` to story positions `i` with `start ≤ i < stop`
(the loop `for (c = charIndex; c < charIndex + runLength && c < story.characters.length; c++)`;
the second loop bound is the clamp to the story's current length, which
here is the length of the traversed list). -/
def applyFmtRangeAux (f : Formatting) (start stop : Nat) :
    Nat → List (Char × CharState) → List (Char × CharState)
  | _, [] => []
  | i, c :: rest =>
      (if start ≤ i ∧ i < stop then (c.1, applyFmtChar f c.2) else c) ::
        applyFmtRangeAux f start stop (i + 1) rest

/-- The per-run formatting loop.  Faithful to the source: `charIndex` is
advanced only inside `if (run.text && run.formatting)`, i.e. only for
runs that carry both non-empty text and a formatting object. -/
def applyRunsFmt : List Run → Nat → List (Char × CharState) → List (Char × CharState)
  | [], _, story => story
  | r :: rs, charIndex, story =>
      if r.text ≠ "" then
        match r.formatting with
        | some f =>
            let runLength := r.text.length
            let story' := applyFmtRangeAux f charIndex (charIndex + runLength) 0 story
            applyRunsFmt rs (charIndex + runLength) story'
        | none => applyRunsFmt rs charIndex story
      else applyRunsFmt rs charIndex story

/-- `getOrCreateStyle`: map the source name through `styleMapping` (with
JS `||` fallback to the source name), return an existing style when the
lookup finds a valid one, otherwise try to create it (`cf name = true`
models `paragraphStyles.add` throwing) and fall back to
`"[Basic Paragraph]"` when creation fails. -/
def getOrCreateStyle (cf : String → Bool) (sm : List (String × String))
    (doc : Doc) (wordStyleName : String) : Doc × String :=
  let indesignStyleName := jsOr (sm.lookup wordStyleName) wordStyleName
  if doc.paraStyles.contains indesignStyleName then
    (doc, indesignStyleName)
  else if cf indesignStyleName then
    (doc, "[Basic Paragraph]")
  else
    ({ doc with paraStyles := doc.paraStyles ++ [indesignStyleName] }, indesignStyleName)

/-- `ensurePage`: `while (doc.pages.length <= pageIndex) { doc.pages.add(); pagesCreated++ }`.
Returns the grown document and the number of pages added. -/
def ensurePage (doc : Doc) (pageIndex : Nat) : Doc × Nat :=
  if h : doc.pages.length ≤ pageIndex then
    let r := ensurePage { doc with pages := doc.pages ++ [doc.defaultPage] } pageIndex
    (r.1, r.2 + 1)
  else (doc, 0)
termination_by pageIndex + 1 - doc.pages.length
decreasing_by simp; omega

/-- `getPageContentBounds(pageIndex)`: content rectangle of a page from
its own bounds and margin preferences. -/
def getPageContentBounds (doc : Doc) (pageIndex : Nat) : Rect :=
  let page := doc.pages.getD pageIndex doc.defaultPage
  { x := page.margins.left
  , y := page.margins.top
  , width := (page.bounds.x2 - page.bounds.x1) - page.margins.left - page.margins.right
  , height := (page.bounds.y2 - page.bounds.y1) - page.margins.top - page.margins.bottom }

/-- Set `frames[i].nextTextFrame := some nid`. -/
def linkFrameAt : List Frame → Nat → Nat → List Frame
  | [], _, _ => []
  | f :: fs, 0, nid => { f with nextTextFrame := some nid } :: fs
  | f :: fs, i + 1, nid => f :: linkFrameAt fs i nid

/-- `getOrCreateTextFrame(pageIndex)`: ensure the page exists, compute its
content bounds and add a fresh text frame spanning them
(`geometricBounds: [y, x, y+height, x+width]`).  Returns the updated
state and the new frame's id. -/
def getOrCreateTextFrame (st : FlowState) (pageIndex : Nat) : FlowState × Nat :=
  let r := ensurePage st.doc pageIndex
  let doc1 := r.1
  let bounds := getPageContentBounds doc1 pageIndex
  let frame : Frame :=
    { pageIndex := pageIndex
    , geometricBounds :=
        { y1 := bounds.y, x1 := bounds.x
        , y2 := bounds.y + bounds.height, x2 := bounds.x + bounds.width }
    , nextTextFrame := none }
  ({ st with
      doc := { doc1 with frames := doc1.frames ++ [frame] }
    , pagesCreated := st.pagesCreated + r.2 }
  , doc1.frames.length)

/-- Engine initialization: create the initial text frame at
`currentPageIndex = startPage` and push it as the sole chain element. -/
def initState (doc : Doc) (startPage : Nat) : FlowState :=
  let st0 : FlowState :=
    { doc := doc, currentPageIndex := startPage, pagesCreated := 0
    , paragraphsPlaced := 0, currentTextFrame := 0, linkedFrames := [] }
  let r := getOrCreateTextFrame st0 startPage
  { r.1 with currentTextFrame := r.2, linkedFrames := [r.2] }

/-- The paragraph-block body up to (and including) `paragraphsPlaced++`:
build the text from the runs, skip the block (`none`) when it is empty
and has no truthy style, otherwise append text plus terminator, apply
the resolved paragraph style to the last paragraph, run the per-run
character formatter from `startIndex`, and bump the counter. -/
def placeParagraph (cf : String → Bool) (sm : List (String × String))
    (st : FlowState) (runs : List Run) (style : Option String) : Option FlowState :=
  let paragraphText := runsText runs
  let text? : Option String :=
    if paragraphText.length > 0 then some (paragraphText ++ "\r")
    else if jsTruthyStr style then some "\r"
    else none
  match text? with
  | none => none
  | some text =>
      let startIndex := st.doc.story.length
      let doc1 := { st.doc with story := st.doc.story ++ strChars text }
      let doc2 :=
        if jsTruthyStr style then
          let rs := getOrCreateStyle cf sm doc1 (style.getD "")
          { rs.1 with styleApps := rs.1.styleApps ++ [(paraCount rs.1.story - 1, rs.2)] }
        else doc1
      let doc3 := { doc2 with story := applyRunsFmt runs startIndex doc2.story }
      some { st with doc := doc3, paragraphsPlaced := st.paragraphsPlaced + 1 }

/-- The overflow branch: `currentPageIndex++`, allocate a frame there,
link the former current frame to it, push it on `linkedFrames`, make it
current. -/
def advanceFrame (st : FlowState) : FlowState :=
  let newPageIndex := st.currentPageIndex + 1
  let r := getOrCreateTextFrame { st with currentPageIndex := newPageIndex } newPageIndex
  let st1 := r.1
  { st1 with
      doc := { st1.doc with frames := linkFrameAt st1.doc.frames st.currentTextFrame r.2 }
    , linkedFrames := st1.linkedFrames ++ [r.2]
    , currentTextFrame := r.2 }

/-- Cell flattening: concatenate the run texts of every cell-paragraph. -/
def cellText (cell : List (List Run)) : String :=
  cell.foldl (fun acc para => acc ++ runsText para) ""

/-- Row flattening: `cellTexts.join("\t")`. -/
def rowText (row : List (List (List Run))) : String :=
  String.intercalate "\t" (row.map cellText)

/-- Table flattening: `tableText += cellTexts.join("\t") + "\r"` per row. -/
def tableFlatten (rows : List (List (List (List Run)))) : String :=
  rows.foldl (fun acc row => acc ++ rowText row ++ "\r") ""

/-- Processing of one content block.  A placed paragraph is followed by
the overflow check `if (autoFlow && currentTextFrame.overflows)`; a
table is flattened and appended bare (counter bumped only when the
flattened text is non-empty), with no style, no run formatting and no
overflow check. -/
def processBlock (ov : Doc → Nat → Bool) (cf : String → Bool)
    (sm : List (String × String)) (autoFlow : Bool)
    (st : FlowState) (b : Block) : FlowState :=
  match b with
  | .paragraph runs style =>
      match placeParagraph cf sm st runs style with
      | none => st
      | some st1 =>
          if autoFlow && ov st1.doc st1.currentTextFrame then advanceFrame st1 else st1
  | .table rows =>
      let tableText := tableFlatten rows
      if tableText ≠ "" then
        { st with
            doc := { st.doc with story := st.doc.story ++ strChars tableText }
          , paragraphsPlaced := st.paragraphsPlaced + 1 }
      else st

/-- `layoutWordContent(command)`: read the options with their defaults,
create the initial frame, process every block in order, and return the
mutated document together with the summary. -/
def layoutWordContent (ov : Doc → Nat → Bool) (cf : String → Bool)
    (doc : Doc) (options : Options) : Doc × Summary :=
  let content := options.content
  let styleMapping := options.styleMapping
  let autoFlow := options.autoFlow != some false
  let startPage := options.startPage.getD 0
  let st0 := initState doc startPage
  let stF := content.foldl (processBlock ov cf styleMapping autoFlow) st0
  (stF.doc,
   { pagesCreated := stF.pagesCreated
   , paragraphsPlaced := stF.paragraphsPlaced
   , framesCreated := stF.linkedFrames.length
   , startPage := startPage
   , endPage := stF.currentPageIndex })

/-- Well-formedness of a flow state: the current frame id points into the
document's frame list (established at initialization, preserved by every
step). -/
def FlowState.wf (st : FlowState) : Prop :=
  st.currentTextFrame < st.doc.frames.length

instance (st : FlowState) : Decidable st.wf := by
  unfold FlowState.wf; infer_instance

/-- The list of engine states visited while folding `processBlock` over a
block list, the initial state included. -/
def flowStates (ov : Doc → Nat → Bool) (cf : String → Bool)
    (sm : List (String × String)) (autoFlow : Bool) :
    FlowState → List Block → List FlowState
  | st, [] => [st]
  | st, b :: bs => st :: flowStates ov cf sm autoFlow (processBlock ov cf sm autoFlow st b) bs

/-- Width of a page as the spec phrases it (`pageWidth`), i.e. the
horizontal extent of `page.bounds`. -/
def pageWidth (p : Page) : Int := p.bounds.x2 - p.bounds.x1

/-- Height of a page as the spec phrases it (`pageHeight`). -/
def pageHeight (p : Page) : Int := p.bounds.y2 - p.bounds.y1

/-- Content bounds exactly as the spec words them:
`{ x: marginLeft, y: marginTop, width: pageWidth - marginLeft - marginRight,
height: pageHeight - marginTop - marginBottom }`. -/
def contentBoundsSpec (p : Page) : Rect :=
  { x := p.margins.left
  , y := p.margins.top
  , width := pageWidth p - p.margins.left - p.margins.right
  , height := pageHeight p - p.margins.top - p.margins.bottom }

/-- A throwaway frame used as `getD` default in statements. -/
def dummyFrame : Frame :=
  { pageIndex := 0
  , geometricBounds := { y1 := 0, x1 := 0, y2 := 0, x2 := 0 }
  , nextTextFrame := none }

/-! ### Helper lemmas about the embedded operations -/

theorem ensurePage_spec (doc : Doc) (pageIndex : Nat) :
    ensurePage doc pageIndex =
      ({ doc with pages := doc.pages ++
          List.replicate (pageIndex + 1 - doc.pages.length) doc.defaultPage },
       pageIndex + 1 - doc.pages.length) := by
  induction doc, pageIndex using ensurePage.induct with
  | case1 doc pageIndex h ih =>
      rw [ensurePage]
      simp only [dif_pos h]
      rw [ih]
      simp only [List.length_append, List.length_cons, List.length_nil]
      rw [Prod.mk.injEq]
      constructor
      · congr 1
        have h2 : pageIndex + 1 - doc.pages.length
            = (pageIndex + 1 - (doc.pages.length + (0 + 1))) + 1 := by omega
        rw [h2, List.replicate_succ, List.append_assoc]
        rfl
      · omega
  | case2 doc pageIndex h =>
      have h2 : pageIndex + 1 - doc.pages.length = 0 := by omega
      rw [ensurePage]
      simp [dif_neg h, h2]

theorem linkFrameAt_length (l : List Frame) (i nid : Nat) :
    (linkFrameAt l i nid).length = l.length := by
  induction l generalizing i with
  | nil => rfl
  | cons f fs ih =>
      cases i with
      | zero => rfl
      | succ j => simp [linkFrameAt, ih]

theorem linkFrameAt_getD_ne (l : List Frame) (i j nid : Nat) (d : Frame) (h : j ≠ i) :
    (linkFrameAt l i nid).getD j d = l.getD j d := by
  induction l generalizing i j with
  | nil => rfl
  | cons f fs ih =>
      cases i with
      | zero =>
          cases j with
          | zero => exact absurd rfl h
          | succ j' => simp [linkFrameAt]
      | succ i' =>
          cases j with
          | zero => rfl
          | succ j' =>
              simp only [linkFrameAt, List.getD_cons_succ]
              exact ih i' j' (fun hc => h (by omega))

theorem linkFrameAt_getD_self (l : List Frame) (i nid : Nat) (d : Frame) (h : i < l.length) :
    (linkFrameAt l i nid).getD i d = { l.getD i d with nextTextFrame := some nid } := by
  induction l generalizing i with
  | nil => simp at h
  | cons f fs ih =>
      cases i with
      | zero => rfl
      | succ i' =>
          simp only [linkFrameAt, List.getD_cons_succ]
          exact ih i' (by simpa using h)

theorem getD_append_length (l : List Frame) (a d : Frame) :
    (l ++ [a]).getD l.length d = a := by
  induction l with
  | nil => rfl
  | cons f fs ih =>
      simp only [List.cons_append, List.length_cons, List.getD_cons_succ]
      exact ih

theorem getD_append_lt (l l' : List Frame) (i : Nat) (d : Frame) (h : i < l.length) :
    (l ++ l').getD i d = l.getD i d := by
  induction l generalizing i with
  | nil => simp at h
  | cons f fs ih =>
      cases i with
      | zero => rfl
      | succ i' => simpa using ih i' (by simpa using h)

theorem getOrCreateStyle_fst (cf : String → Bool) (sm : List (String × String))
    (doc : Doc) (n : String) :
    (getOrCreateStyle cf sm doc n).1.defaultPage = doc.defaultPage ∧
    (getOrCreateStyle cf sm doc n).1.pages = doc.pages ∧
    (getOrCreateStyle cf sm doc n).1.frames = doc.frames ∧
    (getOrCreateStyle cf sm doc n).1.story = doc.story ∧
    (getOrCreateStyle cf sm doc n).1.styleApps = doc.styleApps := by
  unfold getOrCreateStyle
  by_cases h1 : jsOr (List.lookup n sm) n ∈ doc.paraStyles <;>
    by_cases h2 : cf (jsOr (List.lookup n sm) n) <;>
      simp [h1, h2]

theorem getOrCreateTextFrame_spec (st : FlowState) (pageIndex : Nat) :
    getOrCreateTextFrame st pageIndex =
      (let doc1 : Doc :=
        { st.doc with pages := st.doc.pages ++
            List.replicate (pageIndex + 1 - st.doc.pages.length) st.doc.defaultPage }
       let bounds := getPageContentBounds doc1 pageIndex
       ({ st with
           doc := { doc1 with frames := doc1.frames ++
              [{ pageIndex := pageIndex
               , geometricBounds :=
                   { y1 := bounds.y, x1 := bounds.x
                   , y2 := bounds.y + bounds.height, x2 := bounds.x + bounds.width }
               , nextTextFrame := none }] }
         , pagesCreated := st.pagesCreated + (pageIndex + 1 - st.doc.pages.length) },
        st.doc.frames.length)) := by
  unfold getOrCreateTextFrame
  rw [ensurePage_spec]

theorem advanceFrame_fields (st : FlowState) :
    (advanceFrame st).currentPageIndex = st.currentPageIndex + 1 ∧
    (advanceFrame st).currentTextFrame = st.doc.frames.length ∧
    (advanceFrame st).linkedFrames = st.linkedFrames ++ [st.doc.frames.length] ∧
    (advanceFrame st).doc.frames.length = st.doc.frames.length + 1 ∧
    (advanceFrame st).doc.story = st.doc.story ∧
    (advanceFrame st).doc.styleApps = st.doc.styleApps ∧
    (advanceFrame st).doc.paraStyles = st.doc.paraStyles ∧
    (advanceFrame st).paragraphsPlaced = st.paragraphsPlaced := by
  simp only [advanceFrame, getOrCreateTextFrame_spec]
  simp [linkFrameAt_length]

theorem advanceFrame_link (st : FlowState) (h : st.wf) :
    ((advanceFrame st).doc.frames.getD st.currentTextFrame dummyFrame).nextTextFrame
        = some st.doc.frames.length ∧
    ((advanceFrame st).doc.frames.getD st.doc.frames.length dummyFrame).pageIndex
        = st.currentPageIndex + 1 ∧
    ((advanceFrame st).doc.frames.getD st.doc.frames.length dummyFrame).nextTextFrame
        = none := by
  have hwf : st.currentTextFrame < st.doc.frames.length := h
  simp only [advanceFrame, getOrCreateTextFrame_spec]
  refine ⟨?_, ?_, ?_⟩
  · rw [linkFrameAt_getD_self _ _ _ _ (by simp; omega)]
  · rw [linkFrameAt_getD_ne _ _ _ _ _ (by omega)]
    rw [getD_append_length]
  · rw [linkFrameAt_getD_ne _ _ _ _ _ (by omega)]
    rw [getD_append_length]

theorem getOrCreateStyle_defaultPage (cf : String → Bool) (sm : List (String × String))
    (doc : Doc) (n : String) :
    (getOrCreateStyle cf sm doc n).1.defaultPage = doc.defaultPage :=
  (getOrCreateStyle_fst cf sm doc n).1

theorem getOrCreateStyle_pages (cf : String → Bool) (sm : List (String × String))
    (doc : Doc) (n : String) :
    (getOrCreateStyle cf sm doc n).1.pages = doc.pages :=
  (getOrCreateStyle_fst cf sm doc n).2.1

theorem getOrCreateStyle_frames (cf : String → Bool) (sm : List (String × String))
    (doc : Doc) (n : String) :
    (getOrCreateStyle cf sm doc n).1.frames = doc.frames :=
  (getOrCreateStyle_fst cf sm doc n).2.2.1

theorem getOrCreateStyle_story (cf : String → Bool) (sm : List (String × String))
    (doc : Doc) (n : String) :
    (getOrCreateStyle cf sm doc n).1.story = doc.story :=
  (getOrCreateStyle_fst cf sm doc n).2.2.2.1

theorem getOrCreateStyle_styleApps (cf : String → Bool) (sm : List (String × String))
    (doc : Doc) (n : String) :
    (getOrCreateStyle cf sm doc n).1.styleApps = doc.styleApps :=
  (getOrCreateStyle_fst cf sm doc n).2.2.2.2

theorem placeParagraph_inv (cf : String → Bool) (sm : List (String × String))
    (st st1 : FlowState) (runs : List Run) (style : Option String)
    (h : placeParagraph cf sm st runs style = some st1) :
    st1.currentTextFrame = st.currentTextFrame ∧
    st1.currentPageIndex = st.currentPageIndex ∧
    st1.pagesCreated = st.pagesCreated ∧
    st1.linkedFrames = st.linkedFrames ∧
    st1.paragraphsPlaced = st.paragraphsPlaced + 1 ∧
    st1.doc.frames = st.doc.frames ∧
    st1.doc.pages = st.doc.pages ∧
    st1.doc.defaultPage = st.doc.defaultPage := by
  simp only [placeParagraph] at h
  split at h
  · exact absurd h (by simp)
  · rw [Option.some.injEq] at h
    subst h
    by_cases hc : jsTruthyStr style
    · simp [hc, getOrCreateStyle_frames, getOrCreateStyle_pages, getOrCreateStyle_defaultPage]
    · simp [hc]

theorem processBlock_pageIndex_mono (ov : Doc → Nat → Bool) (cf : String → Bool)
    (sm : List (String × String)) (af : Bool) (st : FlowState) (b : Block) :
    st.currentPageIndex ≤ (processBlock ov cf sm af st b).currentPageIndex := by
  cases b with
  | paragraph runs style =>
      simp only [processBlock]
      split
      · exact le_refl _
      · next st1 hp =>
          have h1 := (placeParagraph_inv cf sm st st1 runs style hp).2.1
          split
          · have h2 := (advanceFrame_fields st1).1
            omega
          · omega
  | table rows =>
      simp only [processBlock]
      split <;> exact le_refl _

theorem processBlock_crossInv (ov : Doc → Nat → Bool) (cf : String → Bool)
    (sm : List (String × String)) (af : Bool) (st : FlowState) (b : Block) :
    (processBlock ov cf sm af st b).currentPageIndex + st.linkedFrames.length
      = st.currentPageIndex + (processBlock ov cf sm af st b).linkedFrames.length := by
  cases b with
  | paragraph runs style =>
      simp only [processBlock]
      split
      · rfl
      · next st1 hp =>
          obtain ⟨-, h1, -, h2, -⟩ := placeParagraph_inv cf sm st st1 runs style hp
          split
          · have h3 := (advanceFrame_fields st1).1
            have h5 : (advanceFrame st1).linkedFrames.length = st1.linkedFrames.length + 1 := by
              rw [(advanceFrame_fields st1).2.2.1]
              simp
            have h6 : st1.linkedFrames.length = st.linkedFrames.length := by rw [h2]
            omega
          · have h6 : st1.linkedFrames.length = st.linkedFrames.length := by rw [h2]
            omega
  | table rows =>
      simp only [processBlock]
      split <;> rfl

theorem processBlock_linked_mono (ov : Doc → Nat → Bool) (cf : String → Bool)
    (sm : List (String × String)) (af : Bool) (st : FlowState) (b : Block) :
    st.linkedFrames.length ≤ (processBlock ov cf sm af st b).linkedFrames.length := by
  have h1 := processBlock_crossInv ov cf sm af st b
  have h2 := processBlock_pageIndex_mono ov cf sm af st b
  omega

theorem processBlock_frame_mono (ov : Doc → Nat → Bool) (cf : String → Bool)
    (sm : List (String × String)) (af : Bool) (st : FlowState) (b : Block) (h : st.wf) :
    st.currentTextFrame ≤ (processBlock ov cf sm af st b).currentTextFrame ∧
    (processBlock ov cf sm af st b).wf := by
  cases b with
  | paragraph runs style =>
      simp only [processBlock]
      split
      · exact ⟨le_refl _, h⟩
      · next st1 hp =>
          obtain ⟨hf, -, -, -, -, hfr, -, -⟩ := placeParagraph_inv cf sm st st1 runs style hp
          have hwf1 : st1.wf := by
            unfold FlowState.wf at h ⊢
            rw [hf, hfr]
            exact h
          split
          · have h2 := (advanceFrame_fields st1).2.1
            have h3 := (advanceFrame_fields st1).2.2.2.1
            unfold FlowState.wf at hwf1 ⊢
            constructor
            · rw [h2, hf] at *
              omega
            · rw [h2, h3]
              omega
          · exact ⟨le_of_eq hf.symm, hwf1⟩
  | table rows =>
      simp only [processBlock]
      split
      · exact ⟨le_refl _, h⟩
      · exact ⟨le_refl _, h⟩

theorem flowStates_head (ov : Doc → Nat → Bool) (cf : String → Bool)
    (sm : List (String × String)) (af : Bool) (st : FlowState) (bs : List Block) :
    (flowStates ov cf sm af st bs).head? = some st := by
  cases bs <;> rfl

theorem foldl_mem_flowStates (ov : Doc → Nat → Bool) (cf : String → Bool)
    (sm : List (String × String)) (af : Bool) (bs : List Block) :
    ∀ st : FlowState, bs.foldl (processBlock ov cf sm af) st ∈ flowStates ov cf sm af st bs := by
  induction bs with
  | nil => intro st; simp [flowStates]
  | cons b bs ih =>
      intro st
      rw [flowStates, List.foldl_cons]
      exact List.mem_cons_of_mem _ (ih _)

theorem flowStates_frame_lb (ov : Doc → Nat → Bool) (cf : String → Bool)
    (sm : List (String × String)) (af : Bool) (bs : List Block) :
    ∀ st : FlowState, st.wf → ∀ s ∈ flowStates ov cf sm af st bs,
      st.currentTextFrame ≤ s.currentTextFrame ∧ s.wf := by
  induction bs with
  | nil =>
      intro st hwf s hs
      simp [flowStates] at hs
      subst hs
      exact ⟨le_refl _, hwf⟩
  | cons b bs ih =>
      intro st hwf s hs
      rw [flowStates] at hs
      rcases List.mem_cons.mp hs with h1 | h2
      · subst h1
        exact ⟨le_refl _, hwf⟩
      · have hm := processBlock_frame_mono ov cf sm af st b hwf
        have hr := ih (processBlock ov cf sm af st b) hm.2 s h2
        exact ⟨le_trans hm.1 hr.1, hr.2⟩

theorem flowStates_chain_page (ov : Doc → Nat → Bool) (cf : String → Bool)
    (sm : List (String × String)) (af : Bool) (bs : List Block) :
    ∀ st : FlowState,
      List.Chain' (fun a b => a.currentPageIndex ≤ b.currentPageIndex)
        (flowStates ov cf sm af st bs) := by
  induction bs with
  | nil => intro st; simp [flowStates]
  | cons b bs ih =>
      intro st
      rw [flowStates, List.chain'_cons']
      refine ⟨?_, ih _⟩
      intro y hy
      rw [flowStates_head, Option.mem_def, Option.some.injEq] at hy
      subst hy
      exact processBlock_pageIndex_mono ov cf sm af st b

theorem flowStates_crossInv (ov : Doc → Nat → Bool) (cf : String → Bool)
    (sm : List (String × String)) (af : Bool) (sp : Nat) (bs : List Block) :
    ∀ st : FlowState, st.currentPageIndex + 1 = sp + st.linkedFrames.length →
      ∀ s ∈ flowStates ov cf sm af st bs,
        s.currentPageIndex + 1 = sp + s.linkedFrames.length := by
  induction bs with
  | nil =>
      intro st hst s hs
      simp [flowStates] at hs
      subst hs
      exact hst
  | cons b bs ih =>
      intro st hst s hs
      rw [flowStates] at hs
      rcases List.mem_cons.mp hs with h1 | h2
      · subst h1
        exact hst
      · have hc := processBlock_crossInv ov cf sm af st b
        exact ih (processBlock ov cf sm af st b) (by omega) s h2

theorem foldl_linked_lb (ov : Doc → Nat → Bool) (cf : String → Bool)
    (sm : List (String × String)) (af : Bool) (bs : List Block) :
    ∀ st : FlowState,
      st.linkedFrames.length ≤ (bs.foldl (processBlock ov cf sm af) st).linkedFrames.length := by
  induction bs with
  | nil => intro st; exact le_refl _
  | cons b bs ih =>
      intro st
      rw [List.foldl_cons]
      exact le_trans (processBlock_linked_mono ov cf sm af st b) (ih _)

theorem initState_fields (doc : Doc) (sp : Nat) :
    (initState doc sp).currentPageIndex = sp ∧
    (initState doc sp).linkedFrames = [doc.frames.length] ∧
    (initState doc sp).currentTextFrame = doc.frames.length ∧
    (initState doc sp).doc.frames.length = doc.frames.length + 1 ∧
    (initState doc sp).pagesCreated = sp + 1 - doc.pages.length ∧
    (initState doc sp).paragraphsPlaced = 0 ∧
    (initState doc sp).wf := by
  simp only [initState, getOrCreateTextFrame_spec]
  simp [FlowState.wf]

theorem tableFlatten_foldl_len (rows : List (List (List (List Run)))) :
    ∀ acc : String,
      acc.length ≤ (rows.foldl (fun acc row => acc ++ rowText row ++ "\r") acc).length := by
  induction rows with
  | nil => intro acc; exact le_refl _
  | cons r rs ih =>
      intro acc
      rw [List.foldl_cons]
      refine le_trans ?_ (ih (acc ++ rowText r ++ "\r"))
      simp only [String.length_append]
      omega

theorem tableFlatten_empty_iff (rows : List (List (List (List Run)))) :
    tableFlatten rows = "" ↔ rows = [] := by
  constructor
  · intro h
    cases rows with
    | nil => rfl
    | cons r rs =>
        exfalso
        have h1 := tableFlatten_foldl_len rs ("" ++ rowText r ++ "\r")
        rw [tableFlatten, List.foldl_cons] at h
        rw [h] at h1
        simp [String.length_append] at h1
        exact absurd h1.2 (by decide)
  · intro h
    subst h
    rfl

/-- Concrete page used by the evaluation states below (US letter, 36pt margins). -/
def pg0 : Page :=
  { bounds := { y1 := 0, x1 := 0, y2 := 792, x2 := 612 }
  , margins := { top := 36, bottom := 36, left := 36, right := 36 } }

/-- Concrete frame used by the evaluation states below. -/
def fr0 : Frame :=
  { pageIndex := 0
  , geometricBounds := { y1 := 0, x1 := 0, y2 := 0, x2 := 0 }
  , nextTextFrame := none }

/-- A flow state whose chain story already holds ten characters, so the
next paragraph is appended at story offset 10. -/
def c1State : FlowState :=
  { doc := { defaultPage := pg0, pages := [pg0], frames := [fr0]
           , story := strChars "0123456789", styleApps := [], paraStyles := [] }
  , currentPageIndex := 0, pagesCreated := 0, paragraphsPlaced := 0
  , currentTextFrame := 0, linkedFrames := [0] }

/-- The C1 paragraph: an unformatted run `"AB"` followed by a bold run
`"CD"`. -/
def c1Runs : List Run :=
  [ { text := "AB", formatting := none }
  , { text := "CD", formatting := some { bold := true, italic := false, underline := false } } ]

/-- Claim C1 (evaluation at the failing input): for the paragraph with
runs `["AB" (no formatting), "CD" (bold)]` appended at story offset 10,
the engine appends `"ABCD\r"` at offsets 10..14 but applies the bold
formatting to characters 10 and 11 (the text of the `"AB"` run) and
leaves characters 12 and 13 (the text of the `"CD"` run) untouched:
`charIndex` is advanced only for runs that carry formatting, so the
claimed range `[12,14)` for the second run does not hold. -/
theorem runFormatter_charIndex_skips_unformatted_runs :
    storyText ((placeParagraph (fun _ => false) [] c1State c1Runs none).getD c1State).doc
        = "0123456789ABCD\r" ∧
    ((((placeParagraph (fun _ => false) [] c1State c1Runs none).getD
        c1State).doc.story.getD 10 (' ', defaultCharState)).2.fontStyle = "Bold") ∧
    ((((placeParagraph (fun _ => false) [] c1State c1Runs none).getD
        c1State).doc.story.getD 11 (' ', defaultCharState)).2.fontStyle = "Bold") ∧
    ((((placeParagraph (fun _ => false) [] c1State c1Runs none).getD
        c1State).doc.story.getD 12 (' ', defaultCharState)).2 = defaultCharState) ∧
    ((((placeParagraph (fun _ => false) [] c1State c1Runs none).getD
        c1State).doc.story.getD 13 (' ', defaultCharState)).2 = defaultCharState) := by
  decide

/-- Claim C3: a table block is flattened (cells joined with `"\t"`, rows
terminated with `"\r"`) and appended to the current container as a bare
text append: the appended characters carry the default character state,
no paragraph style is applied, no frame or page is created, the page
index does not move, and the counter increments only when the flattened
text is non-empty; `{type:"table", rows:[[["A"],["B"]]]}` appends exactly
`"A\tB\r"`. -/
theorem table_flatten_bare_append (ov : Doc → Nat → Bool) (cf : String → Bool)
    (sm : List (String × String)) (af : Bool) (st : FlowState)
    (rows : List (List (List (List Run)))) :
    (processBlock ov cf sm af st (Block.table rows)).doc.story
        = st.doc.story ++ strChars (tableFlatten rows) ∧
    (processBlock ov cf sm af st (Block.table rows)).doc.frames = st.doc.frames ∧
    (processBlock ov cf sm af st (Block.table rows)).doc.pages = st.doc.pages ∧
    (processBlock ov cf sm af st (Block.table rows)).doc.styleApps = st.doc.styleApps ∧
    (processBlock ov cf sm af st (Block.table rows)).doc.paraStyles = st.doc.paraStyles ∧
    (processBlock ov cf sm af st (Block.table rows)).currentPageIndex = st.currentPageIndex ∧
    (processBlock ov cf sm af st (Block.table rows)).currentTextFrame = st.currentTextFrame ∧
    (processBlock ov cf sm af st (Block.table rows)).linkedFrames = st.linkedFrames ∧
    (processBlock ov cf sm af st (Block.table rows)).pagesCreated = st.pagesCreated ∧
    (processBlock ov cf sm af st (Block.table rows)).paragraphsPlaced
        = st.paragraphsPlaced + (if tableFlatten rows = "" then 0 else 1) ∧
    tableFlatten [[[[{ text := "A", formatting := none }]],
                   [[{ text := "B", formatting := none }]]]] = "A\tB\r" := by
  simp only [processBlock]
  split
  · next hne =>
      refine ⟨rfl, rfl, rfl, rfl, rfl, rfl, rfl, rfl, rfl, ?_, by decide⟩
      simp [hne]
  · next hne =>
      simp only [ne_eq, not_not] at hne
      refine ⟨?_, rfl, rfl, rfl, rfl, rfl, rfl, rfl, rfl, ?_, by decide⟩
      · simp [hne, strChars]
      · simp [hne]

/-- Claim C10: a table block increments `paragraphsPlaced` by exactly one
when its flattened text is non-empty (which happens exactly when it has
at least one row, since every row contributes at least a paragraph
terminator), so the summary counter counts flattened tables as well as
paragraph blocks; a table block with no rows (equivalently, whose rows
flatten to the empty string) appends nothing and leaves the whole state
unchanged. -/
theorem table_counts_as_paragraph (ov : Doc → Nat → Bool) (cf : String → Bool)
    (sm : List (String × String)) (af : Bool) (st : FlowState)
    (rows : List (List (List (List Run)))) :
    (processBlock ov cf sm af st (Block.table rows)).paragraphsPlaced
        = st.paragraphsPlaced + (if tableFlatten rows = "" then 0 else 1) ∧
    (tableFlatten rows = "" ↔ rows = []) ∧
    (tableFlatten rows = "" → processBlock ov cf sm af st (Block.table rows) = st) := by
  refine ⟨?_, tableFlatten_empty_iff rows, ?_⟩
  · simp only [processBlock]
    split
    · next hne => simp [hne]
    · next hne =>
        simp only [ne_eq, not_not] at hne
        simp [hne]
  · intro h
    simp [processBlock, h]

/-- Witness for C10 at concrete inputs: an empty table leaves the state
unchanged, and a one-row table increments the counter by one. -/
theorem table_counts_as_paragraph_witness :
    processBlock (fun _ _ => false) (fun _ => false) [] true c1State (Block.table []) = c1State ∧
    (processBlock (fun _ _ => false) (fun _ => false) [] true c1State
        (Block.table [[[[{ text := "A", formatting := none }]]]])).paragraphsPlaced
      = c1State.paragraphsPlaced + (if tableFlatten [[[[{ text := "A", formatting := none }]]]] = "" then 0 else 1) :=
  ⟨(table_counts_as_paragraph (fun _ _ => false) (fun _ => false) [] true c1State []).2.2 rfl,
   (table_counts_as_paragraph (fun _ _ => false) (fun _ => false) [] true c1State
      [[[[{ text := "A", formatting := none }]]]]).1⟩

/-- Claim C7: style resolution is idempotent: resolving the same source
name twice against the same style map yields the same style handle, the
second resolution does not change the document at all, and at most one
style is created across the two resolutions. -/
theorem style_resolution_idempotent (cf : String → Bool) (sm : List (String × String))
    (doc : Doc) (name : String) :
    (getOrCreateStyle cf sm ((getOrCreateStyle cf sm doc name).1) name).2
        = (getOrCreateStyle cf sm doc name).2 ∧
    (getOrCreateStyle cf sm ((getOrCreateStyle cf sm doc name).1) name).1
        = (getOrCreateStyle cf sm doc name).1 ∧
    (getOrCreateStyle cf sm doc name).1.paraStyles.length ≤ doc.paraStyles.length + 1 := by
  unfold getOrCreateStyle
  by_cases h1 : jsOr (List.lookup name sm) name ∈ doc.paraStyles
  · simp [h1]
  · by_cases h2 : cf (jsOr (List.lookup name sm) name)
    · simp [h1, h2]
    · simp [h1, h2]

/-- Claim C6: style resolution is total and never raises: an absent map
key resolves to the source name itself; a target name already present in
the document is returned with the document unchanged; an absent target
name is created when creation succeeds; and when creation fails the
well-known `"[Basic Paragraph]"` fallback is returned — in every case a
style handle is produced (it is either a style of the resulting document
or the fallback). -/
theorem style_resolution_total (cf : String → Bool) (sm : List (String × String))
    (doc : Doc) (name : String) :
    (List.lookup name sm = none → jsOr (List.lookup name sm) name = name) ∧
    (jsOr (List.lookup name sm) name ∈ doc.paraStyles →
        getOrCreateStyle cf sm doc name = (doc, jsOr (List.lookup name sm) name)) ∧
    (jsOr (List.lookup name sm) name ∉ doc.paraStyles →
        cf (jsOr (List.lookup name sm) name) = false →
        getOrCreateStyle cf sm doc name
          = ({ doc with paraStyles := doc.paraStyles ++ [jsOr (List.lookup name sm) name] },
             jsOr (List.lookup name sm) name)) ∧
    (jsOr (List.lookup name sm) name ∉ doc.paraStyles →
        cf (jsOr (List.lookup name sm) name) = true →
        getOrCreateStyle cf sm doc name = (doc, "[Basic Paragraph]")) ∧
    ((getOrCreateStyle cf sm doc name).2 ∈ (getOrCreateStyle cf sm doc name).1.paraStyles ∨
        (getOrCreateStyle cf sm doc name).2 = "[Basic Paragraph]") := by
  refine ⟨fun h => by rw [h]; rfl, ?_, ?_, ?_, ?_⟩
  · intro h1
    simp [getOrCreateStyle, h1]
  · intro h1 h2
    simp [getOrCreateStyle, h1, h2]
  · intro h1 h2
    simp [getOrCreateStyle, h1, h2]
  · unfold getOrCreateStyle
    by_cases h1 : jsOr (List.lookup name sm) name ∈ doc.paraStyles
    · simp [h1]
    · by_cases h2 : cf (jsOr (List.lookup name sm) name)
      · simp [h1, h2]
      · simp [h1, h2]

/-- Witness for C6 at concrete inputs: a map miss resolves `"Heading"`
to itself, and since `"Heading"` is absent and creation succeeds, it is
created. -/
theorem style_resolution_total_witness :
    (List.lookup "Heading" ([] : List (String × String)) = none →
        jsOr (List.lookup "Heading" ([] : List (String × String))) "Heading" = "Heading") ∧
    getOrCreateStyle (fun _ => false) [] c1State.doc "Heading"
      = ({ c1State.doc with paraStyles := c1State.doc.paraStyles ++
            [jsOr (List.lookup "Heading" ([] : List (String × String))) "Heading"] },
         jsOr (List.lookup "Heading" ([] : List (String × String))) "Heading") :=
  ⟨(style_resolution_total (fun _ => false) [] c1State.doc "Heading").1,
   (style_resolution_total (fun _ => false) [] c1State.doc "Heading").2.2.1
     (by decide) rfl⟩

/-- Claim C8: for every page, the content bounds are computed from that
page's own margins and dimensions as `x = marginLeft`, `y = marginTop`,
`width = pageWidth - marginLeft - marginRight`,
`height = pageHeight - marginTop - marginBottom`, and the text frame the
allocator creates spans exactly that rectangle
(`geometricBounds = [y, x, y + height, x + width]`). -/
theorem content_bounds_formula (doc : Doc) (pageIndexA : Nat)
    (st : FlowState) (pageIndex : Nat) :
    getPageContentBounds doc pageIndexA
        = contentBoundsSpec (doc.pages.getD pageIndexA doc.defaultPage) ∧
    (getOrCreateTextFrame st pageIndex).1.doc.frames.getD
        (getOrCreateTextFrame st pageIndex).2 dummyFrame
      = { pageIndex := pageIndex
        , geometricBounds :=
            { y1 := (contentBoundsSpec ((getOrCreateTextFrame st pageIndex).1.doc.pages.getD
                      pageIndex (getOrCreateTextFrame st pageIndex).1.doc.defaultPage)).y
            , x1 := (contentBoundsSpec ((getOrCreateTextFrame st pageIndex).1.doc.pages.getD
                      pageIndex (getOrCreateTextFrame st pageIndex).1.doc.defaultPage)).x
            , y2 := (contentBoundsSpec ((getOrCreateTextFrame st pageIndex).1.doc.pages.getD
                      pageIndex (getOrCreateTextFrame st pageIndex).1.doc.defaultPage)).y
                  + (contentBoundsSpec ((getOrCreateTextFrame st pageIndex).1.doc.pages.getD
                      pageIndex (getOrCreateTextFrame st pageIndex).1.doc.defaultPage)).height
            , x2 := (contentBoundsSpec ((getOrCreateTextFrame st pageIndex).1.doc.pages.getD
                      pageIndex (getOrCreateTextFrame st pageIndex).1.doc.defaultPage)).x
                  + (contentBoundsSpec ((getOrCreateTextFrame st pageIndex).1.doc.pages.getD
                      pageIndex (getOrCreateTextFrame st pageIndex).1.doc.defaultPage)).width }
        , nextTextFrame := none } := by
  constructor
  · rfl
  · rw [getOrCreateTextFrame_spec]
    simp only []
    rw [getD_append_length]
    rfl

theorem runsText_foldl_len (runs : List Run) :
    ∀ acc : String, (runs.foldl (fun acc r => acc ++ r.text) acc).length
      = acc.length + (runs.map (fun r => r.text.length)).sum := by
  induction runs with
  | nil => intro acc; simp
  | cons r rs ih =>
      intro acc
      rw [List.foldl_cons, ih]
      simp [String.length_append]
      omega

theorem runsText_eq_empty (runs : List Run) (h : runsText runs = "") :
    ∀ r ∈ runs, r.text = "" := by
  intro r hr
  have h1 : (runsText runs).length = 0 := by rw [h]; rfl
  rw [runsText, runsText_foldl_len] at h1
  simp only [String.length, List.length_nil, Nat.zero_add] at h1
  rw [List.sum_eq_zero_iff] at h1
  have h2 : r.text.length = 0 := h1 _ (List.mem_map_of_mem _ hr)
  exact String.ext (List.length_eq_zero.mp h2)

theorem applyRunsFmt_of_empty (runs : List Run) :
    ∀ (i : Nat) (story : List (Char × CharState)),
      (∀ r ∈ runs, r.text = "") → applyRunsFmt runs i story = story := by
  induction runs with
  | nil => intro i story h; rfl
  | cons r rs ih =>
      intro i story h
      have hr : r.text = "" := h r (by simp)
      simp only [applyRunsFmt, hr]
      simp only [ne_eq, not_true_eq_false, if_false]
      exact ih i story (fun r' hr' => h r' (by simp [hr']))

theorem placeParagraph_empty_styled (cf : String → Bool) (sm : List (String × String))
    (st : FlowState) (runs : List Run) (style : Option String)
    (hempty : runsText runs = "") (hsty : jsTruthyStr style = true) :
    ∃ st1, placeParagraph cf sm st runs style = some st1 ∧
      st1.doc.story = st.doc.story ++ strChars "\r" ∧
      st1.paragraphsPlaced = st.paragraphsPlaced + 1 ∧
      st1.doc.styleApps = st.doc.styleApps ++
        [(paraCount (st.doc.story ++ strChars "\r") - 1,
          (getOrCreateStyle cf sm { st.doc with story := st.doc.story ++ strChars "\r" }
            (style.getD "")).2)] := by
  have hall := runsText_eq_empty runs hempty
  simp only [placeParagraph, hempty, hsty]
  simp only [String.length, String.toList]
  norm_num
  constructor
  · rw [applyRunsFmt_of_empty runs _ _ hall, getOrCreateStyle_story]
  · rw [getOrCreateStyle_styleApps, getOrCreateStyle_story]

/-- Claim C4: a paragraph block whose runs concatenate to the empty
string is skipped entirely when it has no (truthy) style name — the flow
state is returned unchanged, so nothing is appended, `paragraphsPlaced`
stays, and no frame or page is created; with a style name, exactly one
paragraph terminator is appended, the resolved style is applied to it,
and `paragraphsPlaced` increments. -/
theorem empty_paragraph_behavior (ov : Doc → Nat → Bool) (cf : String → Bool)
    (sm : List (String × String)) (af : Bool) (st : FlowState)
    (runs : List Run) (style : Option String)
    (hempty : runsText runs = "") :
    (jsTruthyStr style = false →
        processBlock ov cf sm af st (Block.paragraph runs style) = st) ∧
    (jsTruthyStr style = true →
        (processBlock ov cf sm af st (Block.paragraph runs style)).doc.story
            = st.doc.story ++ strChars "\r" ∧
        (processBlock ov cf sm af st (Block.paragraph runs style)).paragraphsPlaced
            = st.paragraphsPlaced + 1 ∧
        (processBlock ov cf sm af st (Block.paragraph runs style)).doc.styleApps
            = st.doc.styleApps ++
              [(paraCount (st.doc.story ++ strChars "\r") - 1,
                (getOrCreateStyle cf sm { st.doc with story := st.doc.story ++ strChars "\r" }
                  (style.getD "")).2)]) := by
  constructor
  · intro hsty
    have hp : placeParagraph cf sm st runs style = none := by
      simp only [placeParagraph, hempty, hsty]
      norm_num
    simp only [processBlock, hp]
  · intro hsty
    obtain ⟨st1, hp, hstory, hpp, happ⟩ :=
      placeParagraph_empty_styled cf sm st runs style hempty hsty
    simp only [processBlock, hp]
    split
    · have hf := advanceFrame_fields st1
      refine ⟨?_, ?_, ?_⟩
      · rw [hf.2.2.2.2.1, hstory]
      · rw [hf.2.2.2.2.2.2.2, hpp]
      · rw [hf.2.2.2.2.2.1, happ]
    · exact ⟨hstory, hpp, happ⟩

/-- Witness for C4 at concrete inputs: a runless unstyled paragraph is a
no-op on the concrete state, and a runless paragraph styled `"S"`
appends one styled terminator and bumps the counter. -/
theorem empty_paragraph_behavior_witness :
    processBlock (fun _ _ => false) (fun _ => false) [] true c1State
        (Block.paragraph [] none) = c1State ∧
    ((processBlock (fun _ _ => false) (fun _ => false) [] true c1State
        (Block.paragraph [] (some "S"))).doc.story
      = c1State.doc.story ++ strChars "\r" ∧
     (processBlock (fun _ _ => false) (fun _ => false) [] true c1State
        (Block.paragraph [] (some "S"))).paragraphsPlaced
      = c1State.paragraphsPlaced + 1 ∧
     (processBlock (fun _ _ => false) (fun _ => false) [] true c1State
        (Block.paragraph [] (some "S"))).doc.styleApps
      = c1State.doc.styleApps ++
          [(paraCount (c1State.doc.story ++ strChars "\r") - 1,
            (getOrCreateStyle (fun _ => false) []
              { c1State.doc with story := c1State.doc.story ++ strChars "\r" }
              ((some "S").getD "")).2)]) :=
  ⟨(empty_paragraph_behavior (fun _ _ => false) (fun _ => false) [] true c1State
      [] none rfl).1 rfl,
   (empty_paragraph_behavior (fun _ _ => false) (fun _ => false) [] true c1State
      [] (some "S") rfl).2 rfl⟩

/-- Claim C9: the flow engine keeps the invariant `currentPageIndex -
startPage = chain length - 1` at every visited state (stated as
`currentPageIndex + 1 = startPage + linkedFrames.length` to avoid
truncated subtraction), and consequently every returned summary
satisfies `endPage = startPage + framesCreated - 1` (with at least one
frame always created). -/
theorem page_frame_invariant (ov : Doc → Nat → Bool) (cf : String → Bool)
    (sm : List (String × String)) (af : Bool) (doc : Doc) (sp : Nat)
    (bs : List Block) (options : Options) :
    (∀ s ∈ flowStates ov cf sm af (initState doc sp) bs,
        s.currentPageIndex + 1 = sp + s.linkedFrames.length) ∧
    1 ≤ (layoutWordContent ov cf doc options).2.framesCreated ∧
    (layoutWordContent ov cf doc options).2.endPage
      = (layoutWordContent ov cf doc options).2.startPage
        + (layoutWordContent ov cf doc options).2.framesCreated - 1 := by
  have hinit : ∀ (d : Doc) (p : Nat),
      (initState d p).currentPageIndex + 1 = p + (initState d p).linkedFrames.length := by
    intro d p
    have h := initState_fields d p
    rw [h.1, h.2.1]
    simp
  refine ⟨flowStates_crossInv ov cf sm af sp bs (initState doc sp) (hinit doc sp), ?_, ?_⟩
  · simp only [layoutWordContent]
    have h1 := foldl_linked_lb ov cf options.styleMapping (options.autoFlow != some false)
      options.content (initState doc (options.startPage.getD 0))
    have h2 := (initState_fields doc (options.startPage.getD 0)).2.1
    rw [h2] at h1
    simpa using h1
  · simp only [layoutWordContent]
    have hmem := foldl_mem_flowStates ov cf options.styleMapping
      (options.autoFlow != some false) options.content
      (initState doc (options.startPage.getD 0))
    have hinv := flowStates_crossInv ov cf options.styleMapping
      (options.autoFlow != some false) (options.startPage.getD 0) options.content
      (initState doc (options.startPage.getD 0)) (hinit doc _) _ hmem
    omega

/-- Witness for C9 at a concrete input: in an empty flow over the
concrete state, the single visited state satisfies the invariant. -/
theorem page_frame_invariant_witness :
    (initState c1State.doc 0).currentPageIndex + 1
      = 0 + (initState c1State.doc 0).linkedFrames.length :=
  (page_frame_invariant (fun _ _ => false) (fun _ => false) [] true c1State.doc 0 []
      { content := [], styleMapping := [], autoFlow := none, startPage := none }).1
    (initState c1State.doc 0) (by simp [flowStates])

/-- Claim C2: with auto-flow enabled, when the current container reports
overflow after a paragraph is placed, the engine advances: the page
index increments by exactly one, a fresh frame is allocated on that page
index, the former current frame's successor link is set to the new
frame, the new frame is appended to the chain and becomes current; the
overflowed frame is never current again (so no further paragraph is
placed into it), and the page index is monotonically non-decreasing
across every step of the flow. -/
theorem overflow_advance_and_monotonicity (ov : Doc → Nat → Bool) (cf : String → Bool)
    (sm : List (String × String)) (st st1 : FlowState) (runs : List Run)
    (style : Option String) (bs : List Block)
    (hwf : st.wf)
    (hplace : placeParagraph cf sm st runs style = some st1)
    (hov : ov st1.doc st1.currentTextFrame = true) :
    processBlock ov cf sm true st (Block.paragraph runs style) = advanceFrame st1 ∧
    (advanceFrame st1).currentPageIndex = st.currentPageIndex + 1 ∧
    (advanceFrame st1).currentTextFrame = st.doc.frames.length ∧
    ((advanceFrame st1).doc.frames.getD (advanceFrame st1).currentTextFrame dummyFrame).pageIndex
        = st.currentPageIndex + 1 ∧
    ((advanceFrame st1).doc.frames.getD st.currentTextFrame dummyFrame).nextTextFrame
        = some (advanceFrame st1).currentTextFrame ∧
    (advanceFrame st1).linkedFrames = st.linkedFrames ++ [(advanceFrame st1).currentTextFrame] ∧
    st.currentTextFrame < (advanceFrame st1).currentTextFrame ∧
    (∀ s ∈ flowStates ov cf sm true (advanceFrame st1) bs,
        st.currentTextFrame < s.currentTextFrame) ∧
    List.Chain' (fun a b => a.currentPageIndex ≤ b.currentPageIndex)
      (flowStates ov cf sm true st bs) := by
  obtain ⟨hf, hpi, hpc, hlf, hpp, hfr, hpg, hdp⟩ := placeParagraph_inv cf sm st st1 runs style hplace
  have hst1wf : st1.wf := by
    unfold FlowState.wf at hwf ⊢
    rw [hf, hfr]
    exact hwf
  have hadv := advanceFrame_fields st1
  have hlink := advanceFrame_link st1 hst1wf
  have hcur : (advanceFrame st1).currentTextFrame = st.doc.frames.length := by
    rw [hadv.2.1, hfr]
  have hstrict : st.currentTextFrame < (advanceFrame st1).currentTextFrame := by
    rw [hcur]
    exact hwf
  have hadvwf : (advanceFrame st1).wf := by
    unfold FlowState.wf
    rw [hadv.2.1, hadv.2.2.2.1]
    omega
  refine ⟨?_, ?_, hcur, ?_, ?_, ?_, hstrict, ?_, flowStates_chain_page ov cf sm true bs st⟩
  · simp only [processBlock, hplace, hov, Bool.true_and, if_true]
  · rw [hadv.1, hpi]
  · rw [hadv.2.1]
    rw [hlink.2.1, hpi]
  · rw [← hf, hlink.1, hadv.2.1, hfr]
  · rw [hadv.2.2.1, hlf, hadv.2.1, hfr]
  · intro s hs
    have h := flowStates_frame_lb ov cf sm true bs (advanceFrame st1) hadvwf s hs
    omega

/-- The options of the end-to-end scenario: one styled paragraph
`"Hello"`, style map `Normal → Body Text`, auto-flow on, start page 0. -/
def helloOptions : Options :=
  { content := [Block.paragraph [{ text := "Hello", formatting := none }] (some "Normal")]
  , styleMapping := [("Normal", "Body Text")]
  , autoFlow := some true
  , startPage := some 0 }

/-- Claim C5: end-to-end, for any document with exactly one page, no
pre-existing containers, an empty chain story, and capacity enough that
the host never reports overflow, flowing `helloOptions` returns the
summary `{pagesCreated:0, paragraphsPlaced:1, framesCreated:1,
startPage:0, endPage:0}`, and the document ends with exactly one
container on page 0 whose story text is `"Hello\r"` with paragraph style
`"Body Text"` applied to paragraph 0. -/
theorem end_to_end_hello (ov : Doc → Nat → Bool) (cf : String → Bool) (doc : Doc)
    (hpages : doc.pages.length = 1) (hframes : doc.frames = [])
    (hstory : doc.story = []) (happ : doc.styleApps = [])
    (hcf : cf "Body Text" = false)
    (hov : ∀ d i, ov d i = false) :
    (layoutWordContent ov cf doc helloOptions).2
      = { pagesCreated := 0, paragraphsPlaced := 1, framesCreated := 1
        , startPage := 0, endPage := 0 } ∧
    (layoutWordContent ov cf doc helloOptions).1.frames.length = 1 ∧
    ((layoutWordContent ov cf doc helloOptions).1.frames.getD 0 dummyFrame).pageIndex = 0 ∧
    storyText (layoutWordContent ov cf doc helloOptions).1 = "Hello\r" ∧
    (layoutWordContent ov cf doc helloOptions).1.styleApps = [(0, "Body Text")] := by
  cases doc with
  | mk dp pages frames story sapps pstyles =>
      simp only at hpages hframes hstory happ
      subst hframes
      subst hstory
      subst happ
      cases pages with
      | nil => simp at hpages
      | cons p rest =>
          cases rest with
          | cons q r => simp at hpages
          | nil =>
              have hgos : ∀ d : Doc, getOrCreateStyle cf [("Normal", "Body Text")] d "Normal"
                  = (if "Body Text" ∈ d.paraStyles then d
                     else { d with paraStyles := d.paraStyles ++ ["Body Text"] }, "Body Text") := by
                intro d
                unfold getOrCreateStyle
                rw [show jsOr (List.lookup "Normal" [("Normal", "Body Text")]) "Normal" = "Body Text" from rfl]
                by_cases hm : "Body Text" ∈ d.paraStyles
                · simp [hm]
                · simp [hm, hcf]
              by_cases hbt : "Body Text" ∈ pstyles
              · simp +decide [layoutWordContent, helloOptions, initState,
                  getOrCreateTextFrame_spec, processBlock, placeParagraph,
                  runsText, jsTruthyStr, hgos, paraCount, applyRunsFmt,
                  strChars, storyText, hov, hcf, hbt]
              · simp +decide [layoutWordContent, helloOptions, initState,
                  getOrCreateTextFrame_spec, processBlock, placeParagraph,
                  runsText, jsTruthyStr, hgos, paraCount, applyRunsFmt,
                  strChars, storyText, hov, hcf, hbt]

/-- The concrete host document of the end-to-end witness: one US-letter
page, no frames, empty story, no styles. -/
def c5Doc : Doc :=
  { defaultPage := pg0, pages := [pg0], frames := [], story := []
  , styleApps := [], paraStyles := [] }

/-- Witness for C5 at the concrete document. -/
theorem end_to_end_hello_witness :
    (layoutWordContent (fun _ _ => false) (fun _ => false) c5Doc helloOptions).2
      = { pagesCreated := 0, paragraphsPlaced := 1, framesCreated := 1
        , startPage := 0, endPage := 0 } :=
  (end_to_end_hello (fun _ _ => false) (fun _ => false) c5Doc rfl rfl rfl rfl rfl
      (fun _ _ => rfl)).1

/-- The flow state after placing a one-run paragraph `"X"` in `c1State`
(the paragraph whose placement precedes the overflow advance in the C2
witness). -/
def c2St1 : FlowState :=
  (placeParagraph (fun _ => false) [] c1State
      [{ text := "X", formatting := none }] none).getD c1State

/-- Witness for C2 at concrete inputs: with an always-overflowing host,
processing a one-run paragraph from the concrete well-formed state takes
the advance branch. -/
theorem overflow_advance_and_monotonicity_witness :
    c1State.wf ∧
    placeParagraph (fun _ => false) [] c1State
        [{ text := "X", formatting := none }] none = some c2St1 ∧
    (fun (_ : Doc) (_ : Nat) => true) c2St1.doc c2St1.currentTextFrame = true ∧
    processBlock (fun _ _ => true) (fun _ => false) [] true c1State
        (Block.paragraph [{ text := "X", formatting := none }] none) = advanceFrame c2St1 :=
  ⟨by decide, rfl, rfl,
   (overflow_advance_and_monotonicity (fun _ _ => true) (fun _ => false) [] c1State c2St1
      [{ text := "X", formatting := none }] none [] (by decide) rfl rfl).1⟩
